import Mathlib

/-
  Verification of the Engine API header-processing pipeline
  (turbo/engineapi/fork_validator.go and eth/stagedsync stage code).

  Shallow embedding: block hashes are naturals (0 models the zero hash
  `common.Hash{}`), database reads are total functions (store I/O errors
  are out of scope), and the opaque state-transition capability
  `validatePayloadFunc` is a function parameter that may rewrite the
  overlay and report a validation error.
-/

namespace Erigon

/-- Block and transaction hashes; `0` models the zero hash `common.Hash{}`. -/
abbrev Hash := Nat

/-- An RLP-encoded transaction, kept opaque as a byte list. -/
abbrev RawTx := List Nat

/-- The fields of `types.Header` that the embedded code reads.  `hash` models
the derived keccak hash `header.Hash()`; the embedding never computes it. -/
structure Header where
  parentHash : Hash
  number : Nat
  hash : Hash
  baseFee : Nat
  gasLimit : Nat
  difficulty : Nat
deriving DecidableEq, Repr

/-- `types.RawBody`: opaque encoded transactions (uncles are never read here). -/
structure RawBody where
  transactions : List RawTx
deriving DecidableEq, Repr

/-- A `types.Block` as consumed by `TryAddingPoWBlock`: `block.Hash()` is
`header.hash`, `block.Header()`/`block.RawBody()` are the two fields. -/
structure Block where
  header : Header
  body : RawBody
deriving DecidableEq, Repr

/-- A read view of the persistent store or of an in-memory overlay
(`memdb.MemoryMutation`), covering the tables touched by the fork validator:
`CanonicalHash`, `HeaderNumber`, `Headers`, `BlockBody`, and the raw
transactions stored per height.  Reads are total; I/O errors are out of
scope of the embedding. -/
structure DB where
  canonical : Nat → Option Hash
  headerNumber : Hash → Option Nat
  headers : Nat → Hash → Option Header
  bodies : Nat → Hash → Option RawBody
  txsAt : Nat → List RawTx

/-- Modelled from the spec: `rawdb.ReadCanonicalHash` returns the stored hash
for a height, or the zero hash when the entry is absent. -/
def DB.readCanonicalHash (db : DB) (n : Nat) : Hash :=
  (db.canonical n).getD 0

/-- Modelled from the spec: `rawdb.IsCanonicalHash` looks up the header number
of the hash and compares the canonical entry at that height with it (the zero
hash is never canonical). -/
def DB.isCanonicalHash (db : DB) (h : Hash) : Bool :=
  match db.headerNumber h with
  | none => false
  | some n => db.readCanonicalHash n != 0 && db.readCanonicalHash n == h

/-- Modelled from the spec: `rawdb.RawTransactionsRange(db, lo, hi)` collects
the encoded transactions of the blocks stored at heights `lo..hi` inclusive;
at the `notifyTxPool` call site this covers the staged head's height. -/
def DB.rawTransactionsRange (db : DB) (lo hi : Nat) : List RawTx :=
  ((List.range (hi + 1 - lo)).map (fun i => db.txsAt (lo + i))).flatten

/-- A validation error reported by the opaque `validate` capability. -/
abbrev VErr := Nat

/-- `validatePayloadFunc`: the opaque state-transition capability.  It receives
the overlay it may write (returned as the first component) together with the
header, optional body, unwind point and side-chain, and reports `some e` on a
state-transition failure. -/
abbrev ValidateFn :=
  DB → Header → Option RawBody → Nat → List Header → List RawBody → DB × Option VErr

/-- `forkSegment`: a full side-fork block held in the cache. -/
structure ForkSegment where
  header : Header
  body : RawBody
deriving DecidableEq, Repr

/-- The side-fork cache `map[common.Hash]forkSegment`, as an association list
with map semantics (insertion shadows and drops any previous binding). -/
def lookupSeg (m : List (Hash × ForkSegment)) (h : Hash) : Option ForkSegment :=
  (m.find? (fun p => p.1 == h)).map (fun p => p.2)

/-- Map-style insertion into the side-fork cache. -/
def insertSeg (m : List (Hash × ForkSegment)) (h : Hash) (sb : ForkSegment) :
    List (Hash × ForkSegment) :=
  (h, sb) :: m.filter (fun p => p.1 != h)

/-- Modelled from the spec: `math.AbsoluteDifference`, used for the
`|currentHeight − number|` depth checks. -/
def absoluteDifference (a b : Nat) : Nat :=
  if a > b then a - b else b - a

/-- `maxForkDepth`: side forks deeper than 32 blocks from head are not validated. -/
def maxForkDepth : Nat := 32

/-- The `ForkValidator` state.  The mutex is irrelevant in the sequential
model; the stored `validatePayload` callback is `none` for the mock
constructor, matching the nil check at the top of `ValidatePayload`. -/
structure ForkValidator where
  sideForksBlock : List (Hash × ForkSegment)
  extendingFork : Option DB
  extendingForkHeadHash : Hash
  validatePayload : Option ValidateFn
  currentHeight : Nat

/-- `NewForkValidator`. -/
def NewForkValidator (currentHeight : Nat) (vfn : ValidateFn) : ForkValidator :=
  { sideForksBlock := [], extendingFork := none, extendingForkHeadHash := 0,
    validatePayload := some vfn, currentHeight := currentHeight }

/-- `NewForkValidatorMock`: no validation callback. -/
def NewForkValidatorMock (currentHeight : Nat) : ForkValidator :=
  { sideForksBlock := [], extendingFork := none, extendingForkHeadHash := 0,
    validatePayload := none, currentHeight := currentHeight }

/-- `clean`: wipes out all side-fork cache entries whose distance from the
current height exceeds `maxForkDepth`. -/
def ForkValidator.clean (fv : ForkValidator) : ForkValidator :=
  let keep := fun (p : Hash × ForkSegment) =>
    absoluteDifference fv.currentHeight p.2.header.number ≤ maxForkDepth
  { fv with sideForksBlock := fv.sideForksBlock.filter keep }

/-- `clear`: rolls back and drops the extending fork overlay and its head hash
(the side-fork cache is deliberately kept, matching the commented-out line). -/
def ForkValidator.clear (fv : ForkValidator) : ForkValidator :=
  { fv with extendingFork := none, extendingForkHeadHash := 0 }

/-- `NotifyCurrentHeight`: records the last processed block and drops any
dangling overlay.  Note that it does not call `clean`. -/
def ForkValidator.NotifyCurrentHeight (fv : ForkValidator) (h : Nat) : ForkValidator :=
  { fv with currentHeight := h, extendingFork := none, extendingForkHeadHash := 0 }

/-- `FlushExtendingFork`: flushes the overlay into the caller's transaction and
clears the staging fields.  A call with no overlay dereferences nil in Go, so
the model returns `none` there.  The flushed transaction view is the overlay
view itself, since the overlay is a layered view over the same base. -/
def ForkValidator.FlushExtendingFork (fv : ForkValidator) : Option (ForkValidator × DB) :=
  match fv.extendingFork with
  | none => none
  | some ov =>
      some ({ fv with extendingFork := none, extendingForkHeadHash := 0 }, ov)

/-- `TryAddingPoWBlock`: inserts a PoW block into the side-fork cache and prunes
(`defer fv.clean()`). -/
def ForkValidator.TryAddingPoWBlock (fv : ForkValidator) (b : Block) : ForkValidator :=
  ({ fv with sideForksBlock :=
      insertSeg fv.sideForksBlock b.header.hash ⟨b.header, b.body⟩ }).clean

/-- One notification sent to the transaction-pool accumulator:
`Reset(0); StartChange(changeHeight, changeHash, changeTxs, unwind);
SendAndReset(ctx, c, baseFee, gasLimit)`. -/
structure AccEvent where
  changeHeight : Nat
  changeHash : Hash
  changeTxs : List RawTx
  unwind : Bool
  baseFee : Nat
  gasLimit : Nat
deriving DecidableEq, Repr

/-- `notifyTxPool`: reads the canonical hash and header at the unwind point
`to` from the extending-fork overlay, collects the raw transactions in range
`to .. to+1`, and emits one unwind state change.  Returns `none` when the
header cannot be found (the error-return paths). -/
def notifyTxPool (overlay : DB) (unwindTo : Nat) : Option AccEvent :=
  let h := overlay.readCanonicalHash unwindTo
  match overlay.headers unwindTo h with
  | none => none
  | some hdr =>
      some { changeHeight := unwindTo, changeHash := h,
             changeTxs := overlay.rawTransactionsRange unwindTo (unwindTo + 1),
             unwind := true, baseFee := hdr.baseFee, gasLimit := hdr.gasLimit }

/-- `ClearWithUnwind`: if the overlay survives, the accumulator is present, the
staged head hash is non-zero and its segment is cached, notify the txpool of
the reverting transactions (errors there are only logged), then roll the
overlay back via `clear`.  `UpdateTxn` only rebinds the overlay's base
transaction and leaves its merged view unchanged, so it is a no-op here. -/
def ForkValidator.ClearWithUnwind (fv : ForkValidator) (accPresent : Bool) :
    ForkValidator × Option AccEvent :=
  match lookupSeg fv.sideForksBlock fv.extendingForkHeadHash, fv.extendingFork with
  | some sb, some overlay =>
      if accPresent && (fv.extendingForkHeadHash != 0) then
        (fv.clear, notifyTxPool overlay (sb.header.number - 1))
      else (fv.clear, none)
  | _, _ => (fv.clear, none)

/-- `remote.EngineStatus`; `VALID` is the Go zero value. -/
inductive EngineStatus
  | VALID
  | INVALID
  | SYNCING
  | ACCEPTED
deriving DecidableEq, Repr

/-- The named results of `ValidatePayload` / `validateAndStorePayload`. -/
structure VPResult where
  status : EngineStatus
  latestValidHash : Hash
  validationError : Option VErr
  criticalError : Option VErr
deriving DecidableEq, Repr

/-- `validateAndStorePayload`: runs the `validate` capability on the given
overlay/batch, and either records the invalid outcome (rolling back and
clearing the extending fork) or stores the now-valid block into the side-fork
cache, recovering the body from the batch when `body` is `nil`.  The returned
`DB` is the post-`validate` overlay content (the in-place mutation of the Go
code).  On the body-recovery failure the status keeps its zero value `VALID`
and a critical error is reported. -/
def ForkValidator.validateAndStorePayload (fv : ForkValidator) (vfn : ValidateFn)
    (db : DB) (header : Header) (body : Option RawBody) (unwindPoint : Nat)
    (headersChain : List Header) (bodiesChain : List RawBody) :
    VPResult × ForkValidator × DB :=
  let r := vfn db header body unwindPoint headersChain bodiesChain
  match r.2 with
  | some e =>
      ({ status := .INVALID, latestValidHash := header.parentHash,
         validationError := some e, criticalError := none },
       { fv with extendingFork := none, extendingForkHeadHash := 0 }, r.1)
  | none =>
      match body with
      | none =>
          match r.1.bodies header.number header.hash with
          | none =>
              ({ status := .VALID, latestValidHash := header.hash,
                 validationError := none, criticalError := some 1 }, fv, r.1)
          | some b =>
              ({ status := .VALID, latestValidHash := header.hash,
                 validationError := none, criticalError := none },
               { fv with sideForksBlock :=
                   insertSeg fv.sideForksBlock header.hash ⟨header, b⟩ }, r.1)
      | some b =>
          ({ status := .VALID, latestValidHash := header.hash,
             validationError := none, criticalError := none },
           { fv with sideForksBlock :=
               insertSeg fv.sideForksBlock header.hash ⟨header, b⟩ }, r.1)

/-- The result of the backward side-fork assembly loop. -/
inductive AssembleResult
  | accepted
  | found (stopHash : Hash) (unwindPoint : Nat)
      (headersChain : List Header) (bodiesChain : List RawBody)
  | fuelOut
deriving Repr

/-- The backward assembly loop of `ValidatePayload`: starting from the parent
hash, stop as soon as the current ancestor hash is canonical; a missing cache
segment or an ancestor body already present in the persistent `BlockBody`
table yields `ACCEPTED`; otherwise prepend the segment and continue from its
parent with unwind point `number − 1`.  `fuel` bounds the walk, which the Go
loop leaves unbounded. -/
def assembleLoop (tx : DB) (cache : List (Hash × ForkSegment)) :
    Nat → Hash → Nat → List Header → List RawBody → AssembleResult
  | 0, _, _, _, _ => .fuelOut
  | fuel + 1, currentHash, unwindPoint, hs, bs =>
      if tx.isCanonicalHash currentHash then
        .found currentHash unwindPoint hs bs
      else
        match lookupSeg cache currentHash with
        | none => .accepted
        | some sb =>
            if (tx.bodies sb.header.number sb.header.hash).isSome then .accepted
            else
              assembleLoop tx cache fuel sb.header.parentHash (sb.header.number - 1)
                (sb.header :: hs) (sb.body :: bs)

/-- The `unwindPoint == fv.currentHeight → unwindPoint = 0` normalization
("do not set an unwind point if we are already there"). -/
def normalizeUnwindPoint (currentHeight u : Nat) : Nat :=
  if u = currentHeight then 0 else u

/-- `ValidatePayload`.  `none` models the diverging Go loop (fuel exhausted in
the backward walk).  A nil callback answers `ACCEPTED` before the deferred
`clean` is even registered; every other path prunes the cache on exit.  On the
canonical-extension path the overlay is created from `tx` (or kept, `UpdateTxn`
being a rebind), the head hash is staged, and the post-`validate` overlay is
written back unless the outcome rolled it back. -/
def ForkValidator.ValidatePayload (fv : ForkValidator) (tx : DB) (header : Header)
    (body : Option RawBody) (extendCanonical : Bool) (fuel : Nat) :
    Option (VPResult × ForkValidator) :=
  match fv.validatePayload with
  | none =>
      some ({ status := .ACCEPTED, latestValidHash := 0,
              validationError := none, criticalError := none }, fv)
  | some vfn =>
      if (lookupSeg fv.sideForksBlock header.hash).isSome then
        some ({ status := .VALID, latestValidHash := header.hash,
                validationError := none, criticalError := none }, fv.clean)
      else if extendCanonical then
        let overlay := fv.extendingFork.getD tx
        let fv2 := { fv with extendingFork := some overlay,
                             extendingForkHeadHash := header.hash }
        let r := fv2.validateAndStorePayload vfn overlay header body 0 [] []
        let fv3 := if r.2.1.extendingFork.isSome
          then { r.2.1 with extendingFork := some r.2.2 } else r.2.1
        some (r.1, fv3.clean)
      else if absoluteDifference fv.currentHeight header.number > maxForkDepth then
        some ({ status := .ACCEPTED, latestValidHash := 0,
                validationError := none, criticalError := none }, fv.clean)
      else
        match assembleLoop tx fv.sideForksBlock fuel header.parentHash
            (header.number - 1) [] [] with
        | .accepted =>
            some ({ status := .ACCEPTED, latestValidHash := 0,
                    validationError := none, criticalError := none }, fv.clean)
        | .fuelOut => none
        | .found _ u hs bs =>
            let r := fv.validateAndStorePayload vfn tx header body
              (normalizeUnwindPoint fv.currentHeight u) hs bs
            some (r.1, r.2.1.clean)

/-- One public `ForkValidator` operation, for reachability over call sequences. -/
inductive FvOp
  | validate (tx : DB) (header : Header) (body : Option RawBody)
      (extendCanonical : Bool) (fuel : Nat)
  | tryAddPoW (b : Block)
  | notifyHeight (h : Nat)
  | flush
  | clearWithUnwind (accPresent : Bool)

/-- Applying one operation; `none` models a diverging walk in `ValidatePayload`
or the nil-overlay crash of `FlushExtendingFork`. -/
def FvOp.step (fv : ForkValidator) : FvOp → Option ForkValidator
  | .validate tx header body ec fuel =>
      (fv.ValidatePayload tx header body ec fuel).map (fun r => r.2)
  | .tryAddPoW b => some (fv.TryAddingPoWBlock b)
  | .notifyHeight h => some (fv.NotifyCurrentHeight h)
  | .flush => (fv.FlushExtendingFork).map (fun r => r.1)
  | .clearWithUnwind acc => some (fv.ClearWithUnwind acc).1

/-- Applying a call sequence left to right. -/
def fvSteps (fv : ForkValidator) : List FvOp → Option ForkValidator
  | [] => some fv
  | op :: ops =>
      match op.step fv with
      | none => none
      | some fv2 => fvSteps fv2 ops

/-- A submitted payload's keccak hash is never the zero hash; this is the only
well-formedness assumption the invariants need about inputs. -/
def FvOp.wf : FvOp → Prop
  | .validate _ header _ _ _ => header.hash ≠ 0
  | _ => True

/-- Spec invariant 2: the extending-fork overlay is present iff its head hash
is non-zero. -/
def pairInv (fv : ForkValidator) : Prop :=
  fv.extendingFork.isSome ↔ fv.extendingForkHeadHash ≠ 0

/-- Spec invariant 3: every cached side-fork segment is within `maxForkDepth`
of the current height. -/
def cacheInv (fv : ForkValidator) : Prop :=
  ∀ p ∈ fv.sideForksBlock,
    absoluteDifference fv.currentHeight p.2.header.number ≤ maxForkDepth

/- ### eth/stagedsync/stage_finish.go: headers-stage functions -/

/-- `engineapi.ForkChoiceMessage`. -/
structure ForkChoiceMessage where
  headBlockHash : Hash
  safeBlockHash : Hash
  finalizedBlockHash : Hash
deriving DecidableEq, Repr

/-- The forkchoice pointer keys of the store, layered next to the base tables
for `writeForkChoiceHashes`. -/
structure PointerDB where
  base : DB
  forkchoiceHead : Hash
  forkchoiceSafe : Hash
  forkchoiceFinalized : Hash

/-- `writeForkChoiceHashes`: reject (writing nothing) when a non-zero safe or
finalized hash is not canonical; otherwise write the head pointer
unconditionally and the safe/finalized pointers when non-zero. -/
def writeForkChoiceHashes (fc : ForkChoiceMessage) (db : PointerDB) : Bool × PointerDB :=
  if fc.safeBlockHash != 0 && !(db.base.isCanonicalHash fc.safeBlockHash) then
    (false, db)
  else if fc.finalizedBlockHash != 0 && !(db.base.isCanonicalHash fc.finalizedBlockHash) then
    (false, db)
  else
    (true,
     { db with
       forkchoiceHead := fc.headBlockHash,
       forkchoiceSafe :=
         if fc.safeBlockHash != 0 then fc.safeBlockHash else db.forkchoiceSafe,
       forkchoiceFinalized :=
         if fc.finalizedBlockHash != 0 then fc.finalizedBlockHash
         else db.forkchoiceFinalized })

/-- The outcome of `fixCanonicalChain`, carrying the store with the canonical
markers written so far.  `missingAncestor` is the "ancestor is nil" error
(after the current level was already marked), `fuelOut` models the unbounded
Go loop running out of the model's fuel. -/
inductive FixResult
  | ok (db : DB)
  | missingAncestor (db : DB) (height : Nat) (hash : Hash)
  | fuelOut (db : DB)

/-- The store carried by a `FixResult`. -/
def FixResult.finalDb : FixResult → DB
  | .ok db => db
  | .missingAncestor db _ _ => db
  | .fuelOut db => db

/-- `rawdb.WriteCanonicalHash`. -/
def writeCanonical (db : DB) (h : Hash) (n : Nat) : DB :=
  { db with canonical := fun m => if m = n then some h else db.canonical m }

/-- The marker-writing loop of `fixCanonicalChain`: while the canonical entry
at the ancestor height differs from the walked ancestor hash, write the
marker, then step to the parent one level down.  The canonical read returns
the zero hash for an absent entry, as `ReadCanonicalHash` does. -/
def fixCanonicalLoop (tx : DB) : Nat → Nat → Hash → FixResult
  | 0, _, _ => .fuelOut tx
  | fuel + 1, height, hash =>
      if tx.readCanonicalHash height = hash then .ok tx
      else
        match (writeCanonical tx hash height).headers height hash with
        | none => .missingAncestor (writeCanonical tx hash height) height hash
        | some hdr =>
            fixCanonicalLoop (writeCanonical tx hash height) fuel (height - 1)
              hdr.parentHash

/-- `fixCanonicalChain`: a call with height 0 returns immediately; otherwise
run the marker-writing walk from `(height, hash)`. -/
def fixCanonicalChain (tx : DB) (height : Nat) (hash : Hash) (fuel : Nat) : FixResult :=
  if height = 0 then .ok tx else fixCanonicalLoop tx fuel height hash

/- `HeadersUnwind` works over iterable header and total-difficulty tables, so
those two are association lists here (in ascending key order, as a cursor
delivers them). -/

/-- The store view used by `HeadersUnwind`: the canonical-hash index, the
header rows keyed `(number, header)` with the key hash equal to the header's
hash, the total-difficulty rows, the head-header pointer, and the stage/unwind
progress markers. -/
structure UnwindDB where
  canonical : Nat → Option Hash
  headers : List (Nat × Header)
  td : List (Nat × Hash × Nat)
  headHeaderHash : Hash
  headersProgress : Nat
  unwindDone : Bool

/-- The bad-header set of the header downloader (`hd.ReportBadHeader` /
`hd.IsBadHeader`). -/
structure HdState where
  badHeaders : List Hash
deriving DecidableEq, Repr

/-- `hd.IsBadHeader`. -/
def HdState.isBad (hd : HdState) (h : Hash) : Bool :=
  hd.badHeaders.contains h

/-- `hd.ReportBadHeader`. -/
def HdState.report (hd : HdState) (h : Hash) : HdState :=
  { hd with badHeaders := h :: hd.badHeaders }

/-- The descendant-marking pass of `HeadersUnwind`: walk the header rows from
`unwindPoint + 1` upwards in key order and mark every header whose parent is
already bad. -/
def markBadDescendants (hd : HdState) (rows : List (Nat × Header)) : HdState :=
  rows.foldl
    (fun acc row => if acc.isBad row.2.parentHash then acc.report row.2.hash else acc) hd

/-- Modelled from the spec: `rawdb.TruncateCanonicalHash(tx, from, false)`
removes every canonical-hash entry at heights `≥ from` and, with the
`deleteHeaders` flag false, leaves the header rows alone ("Truncate the
canonical-hash index above `UnwindPoint` (but retain header and TD rows)"). -/
def truncateCanonicalHash (db : UnwindDB) (fromHeight : Nat) : UnwindDB :=
  { db with canonical := fun n => if fromHeight ≤ n then none else db.canonical n }

/-- The heaviest-non-bad-tip election of the bad-block branch (test mode):
iterate the TD rows from the last key backwards, skipping bad hashes and
keeping the first strictly greater total difficulty; the accumulator starts
from the Go zero values. -/
def electMaxTd (hd : HdState) (td : List (Nat × Hash × Nat)) : Nat × Hash × Nat :=
  td.reverse.foldl
    (fun acc row =>
      if hd.isBad row.2.1 then acc
      else if row.2.2 > acc.2.2 then row else acc)
    (0, 0, 0)

/-- `HeadersUnwind`: on a bad block, report it and cascade the marking over
headers above the unwind point; truncate the canonical-hash index above the
unwind point; in the bad-block branch elect a new head (in test mode via the
TD scan, otherwise the unwind point's canonical hash), write the head-header
pointer and the unwind/progress markers.  Header and TD rows are never
touched (the TD truncation in the source is commented out). -/
def HeadersUnwind (unwindPoint : Nat) (badBlock : Hash) (db : UnwindDB)
    (hd : HdState) (test : Bool) : UnwindDB × HdState :=
  let hd2 :=
    if badBlock != 0 then
      markBadDescendants (hd.report badBlock)
        (db.headers.filter (fun row => unwindPoint + 1 ≤ row.1))
    else hd
  let db2 := truncateCanonicalHash db (unwindPoint + 1)
  if badBlock != 0 then
    let elected := if test then electMaxTd hd2 db2.td else (0, 0, 0)
    let maxNum := if elected.1 = 0 then unwindPoint else elected.1
    let maxHash :=
      if elected.1 = 0 then (db2.canonical unwindPoint).getD 0 else elected.2.1
    ({ db2 with headHeaderHash := maxHash, unwindDone := true,
                headersProgress := maxNum }, hd2)
  else (db2, hd2)

/- ### FinishForward -/

/-- The store view of the finish stage: the execution-stage progress read by
`s.ExecutionAt`, this stage's saved progress (`s.Update`), the head-header and
head-block pointers, the Erigon version marker, and block lookup for
`rawdb.ReadCurrentBlock`. -/
structure FinishDB where
  executionProgress : Nat
  finishProgress : Nat
  headHeaderHash : Hash
  headBlockHash : Hash
  erigonVersionFinished : Bool
  blockByHash : Hash → Option Block

/-- The observable outcome of one `FinishForward` call: the store, the fork
validator (when configured), and the blocks offered on the head channel. -/
structure FinishOut where
  db : FinishDB
  forkValidator : Option ForkValidator
  headEvents : List Block

/-- `FinishForward`: a no-op returning early when execution progressed no
further than this stage's recorded block number; otherwise write the
head-block pointer from the head-header pointer, save progress, notify the
fork validator of the new height, set the version marker on the initial
cycle, read the current block (a nil read dereferences nil in Go, hence
`none`), and offer it on the head channel when one is configured and ready
(the send is a non-blocking select). -/
def FinishForward (blockNumber : Nat) (db : FinishDB) (fv : Option ForkValidator)
    (initialCycle : Bool) (headChPresent headChReady : Bool) : Option FinishOut :=
  if db.executionProgress ≤ blockNumber then
    some { db := db, forkValidator := fv, headEvents := [] }
  else
    let db1 := { db with headBlockHash := db.headHeaderHash,
                         finishProgress := db.executionProgress }
    let fv2 := fv.map (fun v => v.NotifyCurrentHeight db.executionProgress)
    let db2 := if initialCycle then { db1 with erigonVersionFinished := true } else db1
    match db2.blockByHash db2.headBlockHash with
    | none => none
    | some blk =>
        some { db := db2, forkValidator := fv2,
               headEvents := if headChPresent && headChReady then [blk] else [] }

/- ### Helper lemmas -/

theorem clean_extendingFork (fv : ForkValidator) :
    fv.clean.extendingFork = fv.extendingFork := rfl

theorem clean_extendingForkHeadHash (fv : ForkValidator) :
    fv.clean.extendingForkHeadHash = fv.extendingForkHeadHash := rfl

theorem clean_currentHeight (fv : ForkValidator) :
    fv.clean.currentHeight = fv.currentHeight := rfl

/- ### C10: FinishForward is a no-op without new execution progress -/

/-- C10: whenever the execution stage height is at most the finish stage's
recorded block number, `FinishForward` returns successfully with the store,
the fork validator and the head channel untouched. -/
theorem finishForward_noop (blockNumber : Nat) (db : FinishDB)
    (fv : Option ForkValidator) (initialCycle : Bool) (hp hr : Bool)
    (h : db.executionProgress ≤ blockNumber) :
    FinishForward blockNumber db fv initialCycle hp hr =
      some { db := db, forkValidator := fv, headEvents := [] } := by
  simp [FinishForward, h]

/-- A concrete finish-stage store with execution and finish progress both 5. -/
def finishDbW : FinishDB :=
  { executionProgress := 5, finishProgress := 5, headHeaderHash := 1,
    headBlockHash := 1, erigonVersionFinished := false,
    blockByHash := fun _ => none }

/-- Witness for C10 at execution progress 5 and recorded block number 5. -/
theorem finishForward_noop_witness :
    FinishForward 5 finishDbW none false true true =
      some { db := finishDbW, forkValidator := none, headEvents := [] } :=
  finishForward_noop 5 finishDbW none false true true (by decide)

/- ### C9: writeForkChoiceHashes is atomic on rejection -/

/-- C9: when a non-zero safe or finalized hash is not canonical the function
returns `false` with the store unchanged (no pointer written, head included);
it succeeds exactly when safe and finalized are each zero or canonical — a
condition that never inspects the head hash — and on success the head pointer
is written. -/
theorem writeForkChoiceHashes_spec (fc : ForkChoiceMessage) (db : PointerDB) :
    (((fc.safeBlockHash ≠ 0 ∧ db.base.isCanonicalHash fc.safeBlockHash = false) ∨
      (fc.finalizedBlockHash ≠ 0 ∧
        db.base.isCanonicalHash fc.finalizedBlockHash = false)) →
      writeForkChoiceHashes fc db = (false, db)) ∧
    ((writeForkChoiceHashes fc db).1 = true →
      (writeForkChoiceHashes fc db).2.forkchoiceHead = fc.headBlockHash) ∧
    ((writeForkChoiceHashes fc db).1 = true ↔
      ((fc.safeBlockHash = 0 ∨ db.base.isCanonicalHash fc.safeBlockHash = true) ∧
       (fc.finalizedBlockHash = 0 ∨
         db.base.isCanonicalHash fc.finalizedBlockHash = true))) := by
  by_cases hs : fc.safeBlockHash = 0
  · by_cases hf : fc.finalizedBlockHash = 0
    · simp [writeForkChoiceHashes, hs, hf]
    · by_cases hfc : db.base.isCanonicalHash fc.finalizedBlockHash
      · simp [writeForkChoiceHashes, hs, hf, hfc]
      · simp [writeForkChoiceHashes, hs, hf, hfc]
  · by_cases hsc : db.base.isCanonicalHash fc.safeBlockHash
    · by_cases hf : fc.finalizedBlockHash = 0
      · simp [writeForkChoiceHashes, hs, hsc, hf]
      · by_cases hfc : db.base.isCanonicalHash fc.finalizedBlockHash
        · simp [writeForkChoiceHashes, hs, hsc, hf, hfc]
        · simp [writeForkChoiceHashes, hs, hsc, hf, hfc]
    · simp [writeForkChoiceHashes, hs, hsc]

/-- An empty base store. -/
def dbEmpty : DB :=
  { canonical := fun _ => none, headerNumber := fun _ => none,
    headers := fun _ _ => none, bodies := fun _ _ => none, txsAt := fun _ => [] }

/-- Concrete pointer store for the C9 witness. -/
def pdbW : PointerDB :=
  { base := dbEmpty, forkchoiceHead := 0, forkchoiceSafe := 0, forkchoiceFinalized := 0 }

/-- A forkchoice whose safe hash is non-zero and not canonical. -/
def fcRejW : ForkChoiceMessage :=
  { headBlockHash := 5, safeBlockHash := 3, finalizedBlockHash := 0 }

/-- A forkchoice with zero safe/finalized and a non-canonical head. -/
def fcOkW : ForkChoiceMessage :=
  { headBlockHash := 5, safeBlockHash := 0, finalizedBlockHash := 0 }

/-- Witness for C9: the rejection writes nothing, and the acceptance writes
the head pointer even though the head hash is not canonical in `dbEmpty`. -/
theorem writeForkChoiceHashes_spec_witness :
    writeForkChoiceHashes fcRejW pdbW = (false, pdbW) ∧
    (writeForkChoiceHashes fcOkW pdbW).2.forkchoiceHead = 5 :=
  ⟨(writeForkChoiceHashes_spec fcRejW pdbW).1 (Or.inl ⟨by decide, by rfl⟩),
   (writeForkChoiceHashes_spec fcOkW pdbW).2.1 (by rfl)⟩

/- ### C7: HeadersUnwind truncates canonical hashes, keeps header/TD rows -/

/-- C7: after `HeadersUnwind` to `u`, every canonical-hash entry above `u` is
gone, while the header rows and the total-difficulty rows are unchanged. -/
theorem headersUnwind_frame (u : Nat) (badBlock : Hash) (db : UnwindDB)
    (hd : HdState) (test : Bool) :
    (∀ n, u < n → (HeadersUnwind u badBlock db hd test).1.canonical n = none) ∧
    (HeadersUnwind u badBlock db hd test).1.headers = db.headers ∧
    (HeadersUnwind u badBlock db hd test).1.td = db.td := by
  refine ⟨fun n hn => ?_, ?_, ?_⟩
  · cases hb : (badBlock != 0) <;>
      simp [HeadersUnwind, truncateCanonicalHash, hb, Nat.succ_le_of_lt hn]
  · cases hb : (badBlock != 0) <;> simp [HeadersUnwind, truncateCanonicalHash, hb]
  · cases hb : (badBlock != 0) <;> simp [HeadersUnwind, truncateCanonicalHash, hb]

/-- Concrete unwind store for the C7 witness. -/
def unwindDbW : UnwindDB :=
  { canonical := fun n => if n ≤ 6 then some (n + 20) else none,
    headers := [(4, { parentHash := 23, number := 4, hash := 24,
                      baseFee := 0, gasLimit := 0, difficulty := 0 })],
    td := [(4, 24, 17)], headHeaderHash := 26, headersProgress := 6,
    unwindDone := false }

/-- Witness for C7: unwinding to 3 clears the canonical entry at 5 and keeps
the header and TD rows. -/
theorem headersUnwind_frame_witness :
    (HeadersUnwind 3 0 unwindDbW ⟨[]⟩ false).1.canonical 5 = none ∧
    (HeadersUnwind 3 0 unwindDbW ⟨[]⟩ false).1.headers = unwindDbW.headers ∧
    (HeadersUnwind 3 0 unwindDbW ⟨[]⟩ false).1.td = unwindDbW.td :=
  ⟨(headersUnwind_frame 3 0 unwindDbW ⟨[]⟩ false).1 5 (by decide),
   (headersUnwind_frame 3 0 unwindDbW ⟨[]⟩ false).2.1,
   (headersUnwind_frame 3 0 unwindDbW ⟨[]⟩ false).2.2⟩

/- ### Branch equations for ValidatePayload -/

/-- With a nil callback, `ValidatePayload` answers `ACCEPTED` untouched. -/
theorem validatePayload_eq_nilCallback (fv : ForkValidator) (tx : DB)
    (header : Header) (body : Option RawBody) (ec : Bool) (fuel : Nat)
    (hcb : fv.validatePayload = none) :
    fv.ValidatePayload tx header body ec fuel =
      some ({ status := .ACCEPTED, latestValidHash := 0,
              validationError := none, criticalError := none }, fv) := by
  simp [ForkValidator.ValidatePayload, hcb]

/-- A cached block short-circuits to `VALID` with its own hash. -/
theorem validatePayload_eq_cached (fv : ForkValidator) (vfn : ValidateFn) (tx : DB)
    (header : Header) (body : Option RawBody) (ec : Bool) (fuel : Nat)
    (sb : ForkSegment)
    (hcb : fv.validatePayload = some vfn)
    (hc : lookupSeg fv.sideForksBlock header.hash = some sb) :
    fv.ValidatePayload tx header body ec fuel =
      some ({ status := .VALID, latestValidHash := header.hash,
              validationError := none, criticalError := none }, fv.clean) := by
  simp [ForkValidator.ValidatePayload, hcb, hc]

/-- The canonical-extension branch of `ValidatePayload`, spelled out. -/
theorem validatePayload_eq_extendCanonical (fv : ForkValidator) (vfn : ValidateFn)
    (tx : DB) (header : Header) (body : Option RawBody) (fuel : Nat)
    (hcb : fv.validatePayload = some vfn)
    (hnc : lookupSeg fv.sideForksBlock header.hash = none) :
    fv.ValidatePayload tx header body true fuel =
      some ((({ fv with extendingFork := some (fv.extendingFork.getD tx),
                        extendingForkHeadHash := header.hash } :
                ForkValidator).validateAndStorePayload vfn (fv.extendingFork.getD tx)
                header body 0 [] []).1,
            (if (({ fv with extendingFork := some (fv.extendingFork.getD tx),
                            extendingForkHeadHash := header.hash } :
                    ForkValidator).validateAndStorePayload vfn
                    (fv.extendingFork.getD tx) header body 0 [] []).2.1.extendingFork.isSome
             then { (({ fv with extendingFork := some (fv.extendingFork.getD tx),
                                extendingForkHeadHash := header.hash } :
                       ForkValidator).validateAndStorePayload vfn
                       (fv.extendingFork.getD tx) header body 0 [] []).2.1 with
                    extendingFork :=
                      some (({ fv with extendingFork := some (fv.extendingFork.getD tx),
                                       extendingForkHeadHash := header.hash } :
                              ForkValidator).validateAndStorePayload vfn
                              (fv.extendingFork.getD tx) header body 0 [] []).2.2 }
             else (({ fv with extendingFork := some (fv.extendingFork.getD tx),
                              extendingForkHeadHash := header.hash } :
                     ForkValidator).validateAndStorePayload vfn
                     (fv.extendingFork.getD tx) header body 0 [] []).2.1).clean) := by
  simp [ForkValidator.ValidatePayload, hcb, hnc]

/-- Past `maxForkDepth` from the head a side fork is merely accepted. -/
theorem validatePayload_eq_outOfRange (fv : ForkValidator) (vfn : ValidateFn)
    (tx : DB) (header : Header) (body : Option RawBody) (fuel : Nat)
    (hcb : fv.validatePayload = some vfn)
    (hnc : lookupSeg fv.sideForksBlock header.hash = none)
    (hfar : absoluteDifference fv.currentHeight header.number > maxForkDepth) :
    fv.ValidatePayload tx header body false fuel =
      some ({ status := .ACCEPTED, latestValidHash := 0,
              validationError := none, criticalError := none }, fv.clean) := by
  simp [ForkValidator.ValidatePayload, hcb, hnc, hfar]

/-- An incomplete backward assembly is accepted without validation. -/
theorem validatePayload_eq_walkAccepted (fv : ForkValidator) (vfn : ValidateFn)
    (tx : DB) (header : Header) (body : Option RawBody) (fuel : Nat)
    (hcb : fv.validatePayload = some vfn)
    (hnc : lookupSeg fv.sideForksBlock header.hash = none)
    (hnear : ¬ absoluteDifference fv.currentHeight header.number > maxForkDepth)
    (hwalk : assembleLoop tx fv.sideForksBlock fuel header.parentHash
        (header.number - 1) [] [] = .accepted) :
    fv.ValidatePayload tx header body false fuel =
      some ({ status := .ACCEPTED, latestValidHash := 0,
              validationError := none, criticalError := none }, fv.clean) := by
  simp [ForkValidator.ValidatePayload, hcb, hnc, hnear, hwalk]

/-- The side-fork branch of `ValidatePayload` when the backward assembly found
the canonical ancestor. -/
theorem validatePayload_eq_sideFork (fv : ForkValidator) (vfn : ValidateFn)
    (tx : DB) (header : Header) (body : Option RawBody) (fuel : Nat)
    (stop : Hash) (u : Nat) (hs : List Header) (bs : List RawBody)
    (hcb : fv.validatePayload = some vfn)
    (hnc : lookupSeg fv.sideForksBlock header.hash = none)
    (hnear : ¬ absoluteDifference fv.currentHeight header.number > maxForkDepth)
    (hwalk : assembleLoop tx fv.sideForksBlock fuel header.parentHash
        (header.number - 1) [] [] = .found stop u hs bs) :
    fv.ValidatePayload tx header body false fuel =
      some ((fv.validateAndStorePayload vfn tx header body
              (normalizeUnwindPoint fv.currentHeight u) hs bs).1,
            (fv.validateAndStorePayload vfn tx header body
              (normalizeUnwindPoint fv.currentHeight u) hs bs).2.1.clean) := by
  simp [ForkValidator.ValidatePayload, hcb, hnc, hnear, hwalk]

/- ### C2: a validation error yields INVALID/parentHash and rolls the overlay back -/

/-- When `validate` fails, `validateAndStorePayload` reports `INVALID` with the
parent hash and clears the extending-fork pair. -/
theorem validateAndStorePayload_invalid (fv : ForkValidator) (vfn : ValidateFn)
    (db : DB) (header : Header) (body : Option RawBody) (u : Nat)
    (hs : List Header) (bs : List RawBody) (e : VErr)
    (hv : (vfn db header body u hs bs).2 = some e) :
    fv.validateAndStorePayload vfn db header body u hs bs =
      ({ status := .INVALID, latestValidHash := header.parentHash,
         validationError := some e, criticalError := none },
       { fv with extendingFork := none, extendingForkHeadHash := 0 },
       (vfn db header body u hs bs).1) := by
  simp [ForkValidator.validateAndStorePayload, hv]

/-- The extending-fork pair after `validateAndStorePayload`: cleared on a
validation error, untouched otherwise. -/
theorem validateAndStorePayload_pair (fv : ForkValidator) (vfn : ValidateFn)
    (db : DB) (header : Header) (body : Option RawBody) (u : Nat)
    (hs : List Header) (bs : List RawBody) :
    ((fv.validateAndStorePayload vfn db header body u hs bs).2.1.extendingFork = none ∧
     (fv.validateAndStorePayload vfn db header body u hs bs).2.1.extendingForkHeadHash
       = 0) ∨
    ((fv.validateAndStorePayload vfn db header body u hs bs).2.1.extendingFork
       = fv.extendingFork ∧
     (fv.validateAndStorePayload vfn db header body u hs bs).2.1.extendingForkHeadHash
       = fv.extendingForkHeadHash) := by
  unfold ForkValidator.validateAndStorePayload
  cases hv : (vfn db header body u hs bs).2 with
  | some e => left; simp [hv]
  | none =>
      cases body with
      | none =>
          cases hb : (vfn db header none u hs bs).1.bodies header.number header.hash with
          | none => right; simp [hv, hb]
          | some b => right; simp [hv, hb]
      | some b => right; simp [hv]

/-- C2: on either path of `ValidatePayload` that invokes the `validate`
callback — the canonical-extension path and the assembled side-fork path — an
error from the callback produces the `INVALID` status with
`latestValidHash = header.parentHash`, and the returned validator has the
overlay rolled back: `extendingFork = none` and `extendingForkHeadHash = 0`. -/
theorem validatePayload_error_invalid :
    (∀ (fv : ForkValidator) (vfn : ValidateFn) (tx : DB) (header : Header)
        (body : Option RawBody) (fuel : Nat) (e : VErr),
      fv.validatePayload = some vfn →
      lookupSeg fv.sideForksBlock header.hash = none →
      (vfn (fv.extendingFork.getD tx) header body 0 [] []).2 = some e →
      fv.ValidatePayload tx header body true fuel =
        some ({ status := .INVALID, latestValidHash := header.parentHash,
                validationError := some e, criticalError := none },
              ({ fv with extendingFork := none, extendingForkHeadHash := 0 } :
                ForkValidator).clean) ∧
      (({ fv with extendingFork := none, extendingForkHeadHash := 0 } :
          ForkValidator).clean).extendingFork = none ∧
      (({ fv with extendingFork := none, extendingForkHeadHash := 0 } :
          ForkValidator).clean).extendingForkHeadHash = 0) ∧
    (∀ (fv : ForkValidator) (vfn : ValidateFn) (tx : DB) (header : Header)
        (body : Option RawBody) (fuel : Nat) (stop : Hash) (u : Nat)
        (hs : List Header) (bs : List RawBody) (e : VErr),
      fv.validatePayload = some vfn →
      lookupSeg fv.sideForksBlock header.hash = none →
      ¬ absoluteDifference fv.currentHeight header.number > maxForkDepth →
      assembleLoop tx fv.sideForksBlock fuel header.parentHash
        (header.number - 1) [] [] = .found stop u hs bs →
      (vfn tx header body (normalizeUnwindPoint fv.currentHeight u) hs bs).2 = some e →
      fv.ValidatePayload tx header body false fuel =
        some ({ status := .INVALID, latestValidHash := header.parentHash,
                validationError := some e, criticalError := none },
              ({ fv with extendingFork := none, extendingForkHeadHash := 0 } :
                ForkValidator).clean) ∧
      (({ fv with extendingFork := none, extendingForkHeadHash := 0 } :
          ForkValidator).clean).extendingFork = none ∧
      (({ fv with extendingFork := none, extendingForkHeadHash := 0 } :
          ForkValidator).clean).extendingForkHeadHash = 0) := by
  constructor
  · intro fv vfn tx header body fuel e hcb hnc hv
    refine ⟨?_, rfl, rfl⟩
    rw [validatePayload_eq_extendCanonical fv vfn tx header body fuel hcb hnc]
    rw [validateAndStorePayload_invalid _ vfn _ header body 0 [] [] e hv]
    simp
  · intro fv vfn tx header body fuel stop u hs bs e hcb hnc hnear hwalk hv
    refine ⟨?_, rfl, rfl⟩
    rw [validatePayload_eq_sideFork fv vfn tx header body fuel stop u hs bs hcb hnc
          hnear hwalk]
    rw [validateAndStorePayload_invalid fv vfn tx header body
          (normalizeUnwindPoint fv.currentHeight u) hs bs e hv]

/-- A callback that always fails with error 3. -/
def vfnErr : ValidateFn := fun db _ _ _ _ _ => (db, some 3)

/-- A fork validator at height 50 whose callback always fails. -/
def fvErrW : ForkValidator := NewForkValidator 50 vfnErr

/-- The payload header used by the C2 witness. -/
def hdrErrW : Header :=
  { parentHash := 9, number := 51, hash := 10, baseFee := 0, gasLimit := 0,
    difficulty := 0 }

/-- Witness for C2 on the canonical-extension path at a concrete state. -/
theorem validatePayload_error_invalid_witness :
    fvErrW.ValidatePayload dbEmpty hdrErrW (some ⟨[]⟩) true 1 =
      some ({ status := .INVALID, latestValidHash := hdrErrW.parentHash,
              validationError := some 3, criticalError := none },
            ({ fvErrW with extendingFork := none, extendingForkHeadHash := 0 } :
              ForkValidator).clean) ∧
    (({ fvErrW with extendingFork := none, extendingForkHeadHash := 0 } :
        ForkValidator).clean).extendingFork = none ∧
    (({ fvErrW with extendingFork := none, extendingForkHeadHash := 0 } :
        ForkValidator).clean).extendingForkHeadHash = 0 :=
  validatePayload_error_invalid.1 fvErrW vfnErr dbEmpty hdrErrW (some ⟨[]⟩) 1 3
    rfl rfl rfl

/- ### C3: the depth bound on the side-fork cache -/

/-- `clean` establishes the cache depth bound. -/
theorem clean_cacheInv (fv : ForkValidator) : cacheInv fv.clean := by
  intro p hp
  simp only [ForkValidator.clean, List.mem_filter] at hp
  simpa using hp.2

/-- C3 (amended): `TryAddingPoWBlock` and every completed `ValidatePayload` on
a validator carrying a validate callback leave every cached side-fork segment
within `maxForkDepth = 32` of the current height (both run the deferred
`clean`); `NotifyCurrentHeight` carries no such pruning. -/
theorem cache_depth_after_clean :
    (∀ (fv : ForkValidator) (b : Block), cacheInv (fv.TryAddingPoWBlock b)) ∧
    (∀ (fv : ForkValidator) (vfn : ValidateFn) (tx : DB) (header : Header)
        (body : Option RawBody) (ec : Bool) (fuel : Nat) (res : VPResult)
        (fv2 : ForkValidator),
      fv.validatePayload = some vfn →
      fv.ValidatePayload tx header body ec fuel = some (res, fv2) →
      cacheInv fv2) := by
  constructor
  · intro fv b
    exact clean_cacheInv _
  · intro fv vfn tx header body ec fuel res fv2 hcb hrun
    unfold ForkValidator.ValidatePayload at hrun
    rw [hcb] at hrun
    simp only [] at hrun
    by_cases hc : (lookupSeg fv.sideForksBlock header.hash).isSome
    · rw [if_pos hc] at hrun
      simp only [Option.some.injEq, Prod.mk.injEq] at hrun
      rw [← hrun.2]
      exact clean_cacheInv _
    · rw [if_neg hc] at hrun
      by_cases hec : ec = true
      · rw [if_pos hec] at hrun
        simp only [Option.some.injEq, Prod.mk.injEq] at hrun
        rw [← hrun.2]
        exact clean_cacheInv _
      · rw [if_neg hec] at hrun
        by_cases hfar : absoluteDifference fv.currentHeight header.number > maxForkDepth
        · rw [if_pos hfar] at hrun
          simp only [Option.some.injEq, Prod.mk.injEq] at hrun
          rw [← hrun.2]
          exact clean_cacheInv _
        · rw [if_neg hfar] at hrun
          cases hwalk : assembleLoop tx fv.sideForksBlock fuel header.parentHash
              (header.number - 1) [] [] with
          | accepted =>
              rw [hwalk] at hrun
              simp only [Option.some.injEq, Prod.mk.injEq] at hrun
              rw [← hrun.2]
              exact clean_cacheInv _
          | fuelOut => rw [hwalk] at hrun; cases hrun
          | found stop u hs bs =>
              rw [hwalk] at hrun
              simp only [Option.some.injEq, Prod.mk.injEq] at hrun
              rw [← hrun.2]
              exact clean_cacheInv _

/-- A callback that always succeeds. -/
def vfnOk : ValidateFn := fun db _ _ _ _ _ => (db, none)

/-- A fork validator at height 100 with the always-succeeding callback. -/
def fvC3w : ForkValidator := NewForkValidator 100 vfnOk

/-- The payload used by the C3 witness. -/
def hdrC3w : Header :=
  { parentHash := 1, number := 101, hash := 2, baseFee := 0, gasLimit := 0,
    difficulty := 0 }

/-- The concrete run of `ValidatePayload` for the C3 witness. -/
def runC3w : VPResult × ForkValidator :=
  (fvC3w.ValidatePayload dbEmpty hdrC3w (some ⟨[]⟩) true 1).getD
    ({ status := .VALID, latestValidHash := 0, validationError := none,
       criticalError := none }, fvC3w)

/-- Witness for C3 (amended) on a concrete completed `ValidatePayload`. -/
theorem cache_depth_after_clean_witness : cacheInv runC3w.2 :=
  cache_depth_after_clean.2 fvC3w vfnOk dbEmpty hdrC3w (some ⟨[]⟩) true 1
    runC3w.1 runC3w.2 rfl rfl

/-- The PoW block added in the C3 counterexample (number 100, hash 5). -/
def blkC3 : Block :=
  { header := { parentHash := 0, number := 100, hash := 5, baseFee := 0,
                gasLimit := 0, difficulty := 1 },
    body := { transactions := [] } }

/-- The state reached by `TryAddingPoWBlock(blkC3)` at height 100 followed by
`NotifyCurrentHeight(200)`. -/
def fvC3 : ForkValidator :=
  ((NewForkValidatorMock 100).TryAddingPoWBlock blkC3).NotifyCurrentHeight 200

/-- Counterexample to C3 as stated: after `TryAddingPoWBlock` at height 100
and `NotifyCurrentHeight(200)` — a sequence of public calls — the cache still
holds the segment at height 100, at distance 100 > 32 from the current
height. -/
theorem cache_depth_counterexample :
    fvSteps (NewForkValidatorMock 100)
        [FvOp.tryAddPoW blkC3, FvOp.notifyHeight 200] = some fvC3 ∧
    ¬ cacheInv fvC3 := by
  constructor
  · rfl
  · intro h
    have := h (5, ⟨blkC3.header, blkC3.body⟩) (by decide)
    revert this
    decide

/- ### C4: ClearWithUnwind notifies the txpool then rolls the overlay back -/

/-- C4: with a live overlay, a present accumulator and the staged head cached,
`ClearWithUnwind` reads the canonical hash and header at the staged head's
number minus one, emits one unwind-flagged state change whose transactions
cover heights `number−1 .. number` of the overlay — in particular every
transaction stored for the staged head's height — and returns the validator
with the overlay rolled back and the cache kept. -/
theorem clearWithUnwind_spec (fv : ForkValidator) (ov : DB) (sb : ForkSegment)
    (hdr : Header)
    (hov : fv.extendingFork = some ov)
    (hhead : fv.extendingForkHeadHash ≠ 0)
    (hseg : lookupSeg fv.sideForksBlock fv.extendingForkHeadHash = some sb)
    (hnum : 1 ≤ sb.header.number)
    (hhdr : ov.headers (sb.header.number - 1)
        (ov.readCanonicalHash (sb.header.number - 1)) = some hdr) :
    fv.ClearWithUnwind true =
      (fv.clear,
       some { changeHeight := sb.header.number - 1,
              changeHash := ov.readCanonicalHash (sb.header.number - 1),
              changeTxs := ov.rawTransactionsRange (sb.header.number - 1)
                sb.header.number,
              unwind := true, baseFee := hdr.baseFee, gasLimit := hdr.gasLimit }) ∧
    (∀ t ∈ ov.txsAt sb.header.number,
        t ∈ ov.rawTransactionsRange (sb.header.number - 1) sb.header.number) ∧
    fv.clear.extendingFork = none ∧ fv.clear.extendingForkHeadHash = 0 ∧
    fv.clear.sideForksBlock = fv.sideForksBlock := by
  have hsucc : sb.header.number - 1 + 1 = sb.header.number := Nat.sub_add_cancel hnum
  have h2 : sb.header.number + 1 - (sb.header.number - 1) = 2 := by omega
  have hrange : ov.rawTransactionsRange (sb.header.number - 1) sb.header.number =
      ov.txsAt (sb.header.number - 1) ++ ov.txsAt sb.header.number := by
    simp [DB.rawTransactionsRange, h2, List.range_succ, hsucc]
  constructor
  · simp [ForkValidator.ClearWithUnwind, hseg, hov, hhead, notifyTxPool, hhdr, hsucc]
  · refine ⟨fun t ht => ?_, rfl, rfl, rfl⟩
    rw [hrange]
    exact List.mem_append_right _ ht

/-- The canonical header surviving at height 6 in the C4 witness overlay. -/
def hdrOvC4 : Header :=
  { parentHash := 0, number := 6, hash := 40, baseFee := 12, gasLimit := 34,
    difficulty := 0 }

/-- The staged head segment of the C4 witness (number 7, hash 31). -/
def sbC4 : ForkSegment :=
  { header := { parentHash := 40, number := 7, hash := 31, baseFee := 0,
                gasLimit := 0, difficulty := 0 },
    body := { transactions := [[9]] } }

/-- The C4 witness overlay: canonical hash 40 at height 6, its header, and
stored transactions at heights 6 and 7. -/
def ovC4 : DB :=
  { canonical := fun n => if n = 6 then some 40 else none,
    headerNumber := fun _ => none,
    headers := fun n h => if n = 6 ∧ h = 40 then some hdrOvC4 else none,
    bodies := fun _ _ => none,
    txsAt := fun n => if n = 7 then [[9]] else if n = 6 then [[8]] else [] }

/-- The C4 witness validator: overlay live, staged head 31 cached. -/
def fvC4 : ForkValidator :=
  { sideForksBlock := [(31, sbC4)], extendingFork := some ovC4,
    extendingForkHeadHash := 31, validatePayload := none, currentHeight := 7 }

/-- Witness for C4 at the concrete state `fvC4`. -/
theorem clearWithUnwind_spec_witness :
    fvC4.ClearWithUnwind true =
      (fvC4.clear,
       some { changeHeight := 6, changeHash := 40,
              changeTxs := ovC4.rawTransactionsRange 6 7,
              unwind := true, baseFee := 12, gasLimit := 34 }) ∧
    (∀ t ∈ ovC4.txsAt 7, t ∈ ovC4.rawTransactionsRange 6 7) ∧
    fvC4.clear.extendingFork = none ∧ fvC4.clear.extendingForkHeadHash = 0 ∧
    fvC4.clear.sideForksBlock = fvC4.sideForksBlock :=
  clearWithUnwind_spec fvC4 ovC4 sbC4 hdrOvC4 rfl (by decide) rfl (by decide) rfl

/- ### C5: the overlay/head-hash pair invariant -/

/-- `ValidatePayload` preserves the pair invariant whenever the submitted
header's hash is non-zero. -/
theorem validatePayload_pairInv (fv : ForkValidator) (tx : DB) (header : Header)
    (body : Option RawBody) (ec : Bool) (fuel : Nat) (res : VPResult)
    (fv2 : ForkValidator) (hinv : pairInv fv) (hh : header.hash ≠ 0)
    (hrun : fv.ValidatePayload tx header body ec fuel = some (res, fv2)) :
    pairInv fv2 := by
  cases hcb : fv.validatePayload with
  | none =>
      rw [validatePayload_eq_nilCallback fv tx header body ec fuel hcb] at hrun
      simp only [Option.some.injEq, Prod.mk.injEq] at hrun
      rw [← hrun.2]
      exact hinv
  | some vfn =>
      cases hcache : lookupSeg fv.sideForksBlock header.hash with
      | some sb =>
          rw [validatePayload_eq_cached fv vfn tx header body ec fuel sb hcb hcache]
            at hrun
          simp only [Option.some.injEq, Prod.mk.injEq] at hrun
          rw [← hrun.2]
          unfold pairInv at hinv ⊢
          rw [clean_extendingFork, clean_extendingForkHeadHash]
          exact hinv
      | none =>
          cases ec with
          | true =>
              rw [validatePayload_eq_extendCanonical fv vfn tx header body fuel hcb
                    hcache] at hrun
              rcases validateAndStorePayload_pair
                  { fv with extendingFork := some (fv.extendingFork.getD tx),
                            extendingForkHeadHash := header.hash }
                  vfn (fv.extendingFork.getD tx) header body 0 [] [] with
                ⟨h1, h2⟩ | ⟨h1, h2⟩
              · rw [h1] at hrun
                simp only [Option.isSome_none, Bool.false_eq_true, if_false,
                  Option.some.injEq, Prod.mk.injEq] at hrun
                rw [← hrun.2]
                unfold pairInv
                rw [clean_extendingFork, clean_extendingForkHeadHash, h1, h2]
                simp
              · simp only [] at h1 h2
                rw [h1] at hrun
                simp only [Option.isSome_some, if_true, Option.some.injEq,
                  Prod.mk.injEq] at hrun
                rw [← hrun.2]
                unfold pairInv
                rw [clean_extendingFork, clean_extendingForkHeadHash]
                simp [h2, hh]
          | false =>
              by_cases hfar : absoluteDifference fv.currentHeight header.number
                  > maxForkDepth
              · rw [validatePayload_eq_outOfRange fv vfn tx header body fuel hcb
                      hcache hfar] at hrun
                simp only [Option.some.injEq, Prod.mk.injEq] at hrun
                rw [← hrun.2]
                unfold pairInv at hinv ⊢
                rw [clean_extendingFork, clean_extendingForkHeadHash]
                exact hinv
              · cases hwalk : assembleLoop tx fv.sideForksBlock fuel
                    header.parentHash (header.number - 1) [] [] with
                | accepted =>
                    rw [validatePayload_eq_walkAccepted fv vfn tx header body fuel
                          hcb hcache hfar hwalk] at hrun
                    simp only [Option.some.injEq, Prod.mk.injEq] at hrun
                    rw [← hrun.2]
                    unfold pairInv at hinv ⊢
                    rw [clean_extendingFork, clean_extendingForkHeadHash]
                    exact hinv
                | fuelOut =>
                    rw [show fv.ValidatePayload tx header body false fuel = none by
                          simp [ForkValidator.ValidatePayload, hcb, hcache, hfar,
                            hwalk]] at hrun
                    cases hrun
                | found stop u hs bs =>
                    rw [validatePayload_eq_sideFork fv vfn tx header body fuel stop
                          u hs bs hcb hcache hfar hwalk] at hrun
                    simp only [Option.some.injEq, Prod.mk.injEq] at hrun
                    rw [← hrun.2]
                    unfold pairInv at hinv ⊢
                    rw [clean_extendingFork, clean_extendingForkHeadHash]
                    rcases validateAndStorePayload_pair fv vfn tx header body
                        (normalizeUnwindPoint fv.currentHeight u) hs bs with
                      ⟨h1, h2⟩ | ⟨h1, h2⟩
                    · rw [h1, h2]; simp
                    · rw [h1, h2]; exact hinv

/-- The state returned by `ClearWithUnwind` is `clear` of the input on every
branch. -/
theorem clearWithUnwind_fst (fv : ForkValidator) (acc : Bool) :
    (fv.ClearWithUnwind acc).1 = fv.clear := by
  unfold ForkValidator.ClearWithUnwind
  rcases hlk : lookupSeg fv.sideForksBlock fv.extendingForkHeadHash with _ | sb <;>
    rcases hov : fv.extendingFork with _ | ov
  · rfl
  · rfl
  · rfl
  · show (if _ then (fv.clear, _) else (fv.clear, _)).1 = fv.clear
    split <;> rfl

/-- C5: every public `ForkValidator` operation preserves the invariant that
the extending-fork overlay is present iff the head hash is non-zero
(`ValidatePayload` under the assumption that the payload's hash is not the
zero hash, which keccak never produces). -/
theorem fv_pair_invariant_step (fv : ForkValidator) (op : FvOp)
    (fv2 : ForkValidator) (hinv : pairInv fv) (hwf : op.wf)
    (hstep : op.step fv = some fv2) : pairInv fv2 := by
  cases op with
  | validate tx header body ec fuel =>
      simp only [FvOp.step] at hstep
      cases hrun : fv.ValidatePayload tx header body ec fuel with
      | none => rw [hrun] at hstep; cases hstep
      | some r =>
          rw [hrun] at hstep
          simp only [Option.map_some', Option.some.injEq] at hstep
          rw [← hstep]
          exact validatePayload_pairInv fv tx header body ec fuel r.1 r.2 hinv hwf
            (by rw [hrun])
  | tryAddPoW b =>
      unfold FvOp.step at hstep
      simp only [Option.some.injEq] at hstep
      rw [← hstep]
      unfold pairInv at hinv ⊢
      rw [show (fv.TryAddingPoWBlock b).extendingFork = fv.extendingFork from rfl,
          show (fv.TryAddingPoWBlock b).extendingForkHeadHash
            = fv.extendingForkHeadHash from rfl]
      exact hinv
  | notifyHeight h =>
      unfold FvOp.step at hstep
      simp only [Option.some.injEq] at hstep
      rw [← hstep]
      unfold pairInv
      simp [ForkValidator.NotifyCurrentHeight]
  | flush =>
      simp only [FvOp.step] at hstep
      unfold ForkValidator.FlushExtendingFork at hstep
      cases hov : fv.extendingFork with
      | none => rw [hov] at hstep; cases hstep
      | some ov =>
          rw [hov] at hstep
          simp only [Option.map_some', Option.some.injEq] at hstep
          rw [← hstep]
          unfold pairInv
          simp
  | clearWithUnwind acc =>
      simp only [FvOp.step, Option.some.injEq] at hstep
      rw [← hstep, clearWithUnwind_fst]
      unfold pairInv ForkValidator.clear
      simp

/-- Witness for C5: `NotifyCurrentHeight` applied to the freshly constructed
mock validator keeps the pair invariant. -/
theorem fv_pair_invariant_step_witness :
    pairInv ((NewForkValidatorMock 3).NotifyCurrentHeight 7) :=
  fv_pair_invariant_step (NewForkValidatorMock 3) (FvOp.notifyHeight 7)
    ((NewForkValidatorMock 3).NotifyCurrentHeight 7)
    (by unfold pairInv NewForkValidatorMock; simp)
    trivial rfl

/- ### C6: the canonical fixup walk -/

/-- The fixup loop never changes canonical entries above its starting height. -/
theorem fixCanonicalLoop_frame (fuel : Nat) :
    ∀ (tx : DB) (height : Nat) (a : Hash) (n : Nat), height < n →
      ((fixCanonicalLoop tx fuel height a).finalDb).canonical n = tx.canonical n := by
  induction fuel with
  | zero => intro tx height a n hn; rfl
  | succ fuel ih =>
      intro tx height a n hn
      unfold fixCanonicalLoop
      by_cases hc : tx.readCanonicalHash height = a
      · rw [if_pos hc]
        rfl
      · rw [if_neg hc]
        cases hh : (writeCanonical tx a height).headers height a with
        | none =>
            show (writeCanonical tx a height).canonical n = tx.canonical n
            simp [writeCanonical, Nat.ne_of_gt hn]
        | some hdr =>
            show (fixCanonicalLoop (writeCanonical tx a height) fuel (height - 1)
                hdr.parentHash).finalDb.canonical n = tx.canonical n
            rw [ih (writeCanonical tx a height) (height - 1) hdr.parentHash n
                  (by omega)]
            simp [writeCanonical, Nat.ne_of_gt hn]

/-- C6 (amended): `fixCanonicalChain` called with height 0 writes nothing; a
level whose canonical entry already matches stops the walk with no write; no
entry above the starting height is ever touched; and a mismatching level —
the starting one shown here — is rewritten to the walked ancestor hash.  The
walk can, however, rewrite the entry at height 0 when it reaches height 0
with a mismatch (see the counterexample). -/
theorem fixCanonicalChain_spec :
    (∀ (tx : DB) (h : Hash) (fuel : Nat), fixCanonicalChain tx 0 h fuel = .ok tx) ∧
    (∀ (tx : DB) (height : Nat) (a : Hash) (f : Nat),
        tx.readCanonicalHash height = a →
        fixCanonicalChain tx height a (f + 1) = .ok tx) ∧
    (∀ (tx : DB) (height : Nat) (a : Hash) (fuel n : Nat), height < n →
        ((fixCanonicalChain tx height a fuel).finalDb).canonical n
          = tx.canonical n) ∧
    (∀ (tx : DB) (height : Nat) (a : Hash) (f : Nat), 1 ≤ height →
        tx.readCanonicalHash height ≠ a →
        ((fixCanonicalChain tx height a (f + 1)).finalDb).canonical height
          = some a) := by
  refine ⟨fun tx h fuel => by simp [fixCanonicalChain], ?_, ?_, ?_⟩
  · intro tx height a f hc
    unfold fixCanonicalChain
    by_cases h0 : height = 0
    · rw [if_pos h0]
    · rw [if_neg h0]
      unfold fixCanonicalLoop
      rw [if_pos hc]
  · intro tx height a fuel n hn
    unfold fixCanonicalChain
    by_cases h0 : height = 0
    · rw [if_pos h0]
      rfl
    · rw [if_neg h0]
      exact fixCanonicalLoop_frame fuel tx height a n hn
  · intro tx height a f h1 hc
    unfold fixCanonicalChain
    rw [if_neg (by omega)]
    unfold fixCanonicalLoop
    rw [if_neg hc]
    cases hh : (writeCanonical tx a height).headers height a with
    | none =>
        show (writeCanonical tx a height).canonical height = some a
        simp [writeCanonical]
    | some hdr =>
        show (fixCanonicalLoop (writeCanonical tx a height) f (height - 1)
            hdr.parentHash).finalDb.canonical height = some a
        rw [fixCanonicalLoop_frame f (writeCanonical tx a height) (height - 1)
              hdr.parentHash height (by omega)]
        simp [writeCanonical]

/-- Canonical store with an already matching entry at height 3, for the C6
witness. -/
def dbC6ok : DB :=
  { canonical := fun n => if n = 3 then some 7 else none,
    headerNumber := fun _ => none, headers := fun _ _ => none,
    bodies := fun _ _ => none, txsAt := fun _ => [] }

/-- Witness for C6: the walk from `(3, 7)` stops at once with no write. -/
theorem fixCanonicalChain_spec_witness :
    fixCanonicalChain dbC6ok 3 7 5 = .ok dbC6ok :=
  fixCanonicalChain_spec.2.1 dbC6ok 3 7 4 (by decide)

/-- The height-1 header of the C6 counterexample, whose parent hash 3 does not
match the canonical entry at height 0. -/
def hdrC6 : Header :=
  { parentHash := 3, number := 1, hash := 7, baseFee := 0, gasLimit := 0,
    difficulty := 0 }

/-- The C6 counterexample store: canonical 0 is 99, canonical 1 is 2, and the
header (1, 7) is present while (0, 3) is not. -/
def dbC6 : DB :=
  { canonical := fun n => if n = 0 then some 99 else if n = 1 then some 2 else none,
    headerNumber := fun _ => none,
    headers := fun n h => if n = 1 ∧ h = 7 then some hdrC6 else none,
    bodies := fun _ _ => none, txsAt := fun _ => [] }

/-- Counterexample to C6 as stated: the fixup walk started at `(1, 7)` reaches
height 0 with a mismatch and rewrites the canonical entry at height 0 from 99
to 3. -/
theorem fixCanonicalChain_height0_counterexample :
    dbC6.canonical 0 = some 99 ∧
    ((fixCanonicalChain dbC6 1 7 5).finalDb).canonical 0 = some 3 :=
  ⟨rfl, rfl⟩

/- ### C1: the unwind point of the side-fork walk -/

/-- Shape of a successful backward assembly: the stopping hash is canonical,
and either no segment was collected (then the unwind point and chain are the
initial ones) or the deepest collected segment heads the chain, the stopping
hash is its parent and the unwind point is its number minus one. -/
theorem assembleLoop_found_shape (tx : DB) (cache : List (Hash × ForkSegment)) :
    ∀ (fuel : Nat) (start : Hash) (u0 : Nat) (hs0 : List Header)
      (bs0 : List RawBody) (stop : Hash) (u : Nat) (hs : List Header)
      (bs : List RawBody),
      assembleLoop tx cache fuel start u0 hs0 bs0 = .found stop u hs bs →
      tx.isCanonicalHash stop = true ∧
      ((stop = start ∧ u = u0 ∧ hs = hs0) ∨
       (∃ sb rest, hs = sb :: rest ∧ u = sb.number - 1 ∧ stop = sb.parentHash)) := by
  intro fuel
  induction fuel with
  | zero =>
      intro start u0 hs0 bs0 stop u hs bs h
      simp [assembleLoop] at h
  | succ fuel ih =>
      intro start u0 hs0 bs0 stop u hs bs h
      unfold assembleLoop at h
      by_cases hc : tx.isCanonicalHash start
      · rw [if_pos hc] at h
        injection h with h1 h2 h3 h4
        subst h1; subst h2; subst h3
        exact ⟨hc, Or.inl ⟨rfl, rfl, rfl⟩⟩
      · rw [if_neg hc] at h
        cases hlk : lookupSeg cache start with
        | none => simp [hlk] at h
        | some sb =>
            simp only [hlk] at h
            by_cases hbody : (tx.bodies sb.header.number sb.header.hash).isSome
            · rw [if_pos hbody] at h; cases h
            · rw [if_neg hbody] at h
              obtain ⟨hcan, hdisj⟩ := ih sb.header.parentHash
                (sb.header.number - 1) (sb.header :: hs0) (sb.body :: bs0)
                stop u hs bs h
              refine ⟨hcan, ?_⟩
              rcases hdisj with ⟨hstop, hu, hhs⟩ | ⟨sb2, rest, hhs, hu, hstop⟩
              · exact Or.inr ⟨sb.header, hs0, hhs, hu, hstop⟩
              · exact Or.inr ⟨sb2, rest, hhs, hu, hstop⟩

/-- C1 (amended): when the backward walk of `ValidatePayload` stops at an
ancestor whose hash is canonical at height `n` and the fork numbering is
contiguous (the child of the stopping ancestor carries number `n + 1`), the
unwind point handed to `validate` is `n` — the canonical ancestor's own
height, not `n + 1` — normalized to 0 when it equals `currentHeight`. -/
theorem validatePayload_unwindPoint (fv : ForkValidator) (vfn : ValidateFn)
    (tx : DB) (header : Header) (body : Option RawBody) (fuel : Nat)
    (stop : Hash) (u : Nat) (hs : List Header) (bs : List RawBody) (n : Nat)
    (hcb : fv.validatePayload = some vfn)
    (hnc : lookupSeg fv.sideForksBlock header.hash = none)
    (hnear : ¬ absoluteDifference fv.currentHeight header.number > maxForkDepth)
    (hwalk : assembleLoop tx fv.sideForksBlock fuel header.parentHash
        (header.number - 1) [] [] = .found stop u hs bs)
    (hn : tx.headerNumber stop = some n)
    (hnil : hs = [] → header.number = n + 1)
    (hcons : ∀ sb rest, hs = sb :: rest → sb.number = n + 1) :
    u = n ∧
    fv.ValidatePayload tx header body false fuel =
      some ((fv.validateAndStorePayload vfn tx header body
              (normalizeUnwindPoint fv.currentHeight n) hs bs).1,
            (fv.validateAndStorePayload vfn tx header body
              (normalizeUnwindPoint fv.currentHeight n) hs bs).2.1.clean) := by
  obtain ⟨hcan, hdisj⟩ := assembleLoop_found_shape tx fv.sideForksBlock fuel
    header.parentHash (header.number - 1) [] [] stop u hs bs hwalk
  have hun : u = n := by
    rcases hdisj with ⟨hstop, hu, hhs⟩ | ⟨sb, rest, hhs, hu, hstop⟩
    · have := hnil hhs
      omega
    · have := hcons sb rest hhs
      omega
  subst hun
  exact ⟨rfl, validatePayload_eq_sideFork fv vfn tx header body fuel stop u hs bs
    hcb hnc hnear hwalk⟩

/-- The side-fork segment of the C1 scenario: number 101, hash 11, child of
the canonical ancestor 10. -/
def hdrSegC1 : Header :=
  { parentHash := 10, number := 101, hash := 11, baseFee := 0, gasLimit := 0,
    difficulty := 0 }

/-- The body of the C1 segment and payload. -/
def bodyC1 : RawBody := { transactions := [] }

/-- The submitted payload of the C1 scenario: number 102, parent the cached
segment 11. -/
def hdrC1 : Header :=
  { parentHash := 11, number := 102, hash := 12, baseFee := 0, gasLimit := 0,
    difficulty := 0 }

/-- The C1 persistent store: hash 10 is canonical at height 100. -/
def txC1 : DB :=
  { canonical := fun n => if n = 100 then some 10 else none,
    headerNumber := fun h => if h = 10 then some 100 else none,
    headers := fun _ _ => none, bodies := fun _ _ => none, txsAt := fun _ => [] }

/-- A callback succeeding only when the unwind point is 101, probing the spec's
claimed value. -/
def vfnProbe101 : ValidateFn :=
  fun db _ _ u _ _ => (db, if u = 101 then none else some 7)

/-- A callback succeeding only when the unwind point is 100, probing the
code's actual value. -/
def vfnProbe100 : ValidateFn :=
  fun db _ _ u _ _ => (db, if u = 100 then none else some 7)

/-- The C1 validator carrying the 101-probe. -/
def fvC1a : ForkValidator :=
  { sideForksBlock := [(11, ⟨hdrSegC1, bodyC1⟩)], extendingFork := none,
    extendingForkHeadHash := 0, validatePayload := some vfnProbe101,
    currentHeight := 102 }

/-- The C1 validator carrying the 100-probe. -/
def fvC1b : ForkValidator :=
  { sideForksBlock := [(11, ⟨hdrSegC1, bodyC1⟩)], extendingFork := none,
    extendingForkHeadHash := 0, validatePayload := some vfnProbe100,
    currentHeight := 102 }

/-- Counterexample to C1 as stated: the walk stops at the ancestor 10,
canonical at height `n = 100`, with `currentHeight = 102` so no normalization
applies on either reading.  A callback succeeding only at unwind point
`n + 1 = 101` sees a validation error — so 101 is not what `validate`
receives — while a callback succeeding only at `n = 100` yields `VALID`. -/
theorem validatePayload_unwindPoint_counterexample :
    (fvC1a.ValidatePayload txC1 hdrC1 (some bodyC1) false 10).map
        (fun r => r.1.status) = some .INVALID ∧
    (fvC1b.ValidatePayload txC1 hdrC1 (some bodyC1) false 10).map
        (fun r => r.1.status) = some .VALID :=
  ⟨rfl, rfl⟩

/-- Witness for C1 (amended) at the concrete scenario with the 100-probe. -/
theorem validatePayload_unwindPoint_witness :
    (100 : Nat) = 100 ∧
    fvC1b.ValidatePayload txC1 hdrC1 (some bodyC1) false 10 =
      some ((fvC1b.validateAndStorePayload vfnProbe100 txC1 hdrC1 (some bodyC1)
              (normalizeUnwindPoint fvC1b.currentHeight 100) [hdrSegC1] [bodyC1]).1,
            (fvC1b.validateAndStorePayload vfnProbe100 txC1 hdrC1 (some bodyC1)
              (normalizeUnwindPoint fvC1b.currentHeight 100) [hdrSegC1] [bodyC1]).2.1.clean) :=
  validatePayload_unwindPoint fvC1b vfnProbe100 txC1 hdrC1 (some bodyC1) 10 10 100
    [hdrSegC1] [bodyC1] 100 rfl rfl (by decide) rfl rfl
    (fun h => by cases h)
    (fun sb rest h => by injection h with h1 h2; rw [← h1]; rfl)

end Erigon
